import Mathlib

/-!
# Verification of the AnimalChess rules engine

Shallow embedding of the AnimalChess repository (a hidden-information
animal-chess game on a 4x4 grid plus a special center cell) and proofs of
the specification claims about it.

The embedding follows the source:
* `src/constants.ts` — board constants, animal ranks, the initial deck;
* `src/unnamed/part_000` (the PvP `App` component) — `initGame`,
  `isAdjacent`, `getValidMoves`, `handleMove`, `handleCellClick`.

The `AnimalType`, `PlayerColor`, `Piece`, `Cell`, `Move` and `GameState`
shapes come from the repository's `types.ts`, which is not present under
`src/`; their fields are reconstructed from how `constants.ts` and the
`App` component use them (and from the spec's data model).  The `Piece.id`
string (used only as a React key) is omitted.  A board is represented as a
total function from the 17 cell indices to cells; the source stores the
cell index inside each cell record, but that field always equals the
cell's position in the array, so the function domain plays its role.
-/

/-- The eight animal kinds (enum `AnimalType` in `types.ts`; the variant
set and order are those of the rank table in `constants.ts`). -/
inductive AnimalType where
  | elephant | lion | tiger | leopard | wolf | dog | cat | rat
  deriving DecidableEq, Repr, Fintype

/-- The two sides (enum `PlayerColor` in `types.ts`). -/
inductive PlayerColor where
  | red | blue
  deriving DecidableEq, Repr, Fintype

/-- `BOARD_SIZE` from `constants.ts`. -/
def BOARD_SIZE : Nat := 4

/-- `TOTAL_CELLS` from `constants.ts`: 16 grid cells plus the center. -/
def TOTAL_CELLS : Nat := 17

/-- `CENTER_INDEX` from `constants.ts`. -/
def CENTER_INDEX : Fin 17 := 16

/-- `ANIMAL_RANKS` from `constants.ts`. -/
def ANIMAL_RANKS : AnimalType → Nat
  | .elephant => 8
  | .lion => 7
  | .tiger => 6
  | .leopard => 5
  | .wolf => 4
  | .dog => 3
  | .cat => 2
  | .rat => 1

/-- A piece (`Piece` in `types.ts`): kind, owning color, and rank.  The
rank is stored on the piece exactly as in the source (set from
`ANIMAL_RANKS` at deck-build time). -/
structure Piece where
  type : AnimalType
  color : PlayerColor
  rank : Nat
  deriving DecidableEq, Repr

/-- A board cell (`Cell` in `types.ts`): an optional piece and the
revealed flag.  The source's `index` field is the position in the board
array and is represented by the `Fin 17` domain of `Board`. -/
structure Cell where
  piece : Option Piece
  isRevealed : Bool
  deriving DecidableEq, Repr

/-- The board: 17 cells indexed 0–16 (`Cell[]` of length `TOTAL_CELLS`
in the source). -/
def Board : Type := Fin 17 → Cell

/-- A move (`Move` in `types.ts`): `fromIndex` is `none` for a flip. -/
structure Move where
  fromIndex : Option (Fin 17)
  toIndex : Fin 17
  isFlip : Bool
  deriving DecidableEq, Repr

/-- `isAdjacent` from the `App` component (lines 59–78): center (16)
connects exactly to 5, 6, 9, 10; two grid indices are adjacent when they
differ by one grid step.  Total over natural-number indices, exactly as
the source function is total over JS numbers. -/
def isAdjacent (idx1 idx2 : Nat) : Bool :=
  if idx1 = 16 then idx2 = 5 ∨ idx2 = 6 ∨ idx2 = 9 ∨ idx2 = 10
  else if idx2 = 16 then idx1 = 5 ∨ idx1 = 6 ∨ idx1 = 9 ∨ idx1 = 10
  else
    let x1 : Int := idx1 % BOARD_SIZE
    let y1 : Int := idx1 / BOARD_SIZE
    let x2 : Int := idx2 % BOARD_SIZE
    let y2 : Int := idx2 / BOARD_SIZE
    let dx := (x1 - x2).natAbs
    let dy := (y1 - y2).natAbs
    (dx = 1 ∧ dy = 0) ∨ (dx = 0 ∧ dy = 1)

/-- C10: over the whole domain [0,16]×[0,16] the adjacency predicate is
symmetric and irreflexive; the center (16) is adjacent exactly to
{5, 6, 9, 10}; and two grid indices are adjacent exactly when their
Manhattan distance on the 4×4 grid is 1 (no diagonals, no wraparound).
Totality over the domain holds by construction (`isAdjacent` is a total
function). -/
theorem isAdjacent_symm_irrefl_char :
    ∀ a b : Fin 17,
      isAdjacent a.val b.val = isAdjacent b.val a.val ∧
      isAdjacent a.val a.val = false ∧
      (isAdjacent a.val b.val = true ↔
        (if a.val = 16 then b.val = 5 ∨ b.val = 6 ∨ b.val = 9 ∨ b.val = 10
         else if b.val = 16 then a.val = 5 ∨ a.val = 6 ∨ a.val = 9 ∨ a.val = 10
         else ((a.val % 4 : Int) - (b.val % 4 : Int)).natAbs
              + ((a.val / 4 : Int) - (b.val / 4 : Int)).natAbs = 1)) := by
  decide

/-! ## Move generation (`getValidMoves`, App component lines 80–152) -/

/-- The neighbor list built inside `getValidMoves` (lines 92–111): for a
grid cell, push `index-1`, `index+1`, `index-4`, `index+4` guarded by the
column/row bounds, then the center when the cell is one of the four inner
cells; from the center, push 5, 6, 9, 10. -/
def neighbors (i : Fin 17) : List (Fin 17) :=
  if h : i = CENTER_INDEX then [5, 6, 9, 10]
  else
    have hv : i.val < 17 := i.isLt
    have h16 : i.val ≠ 16 := fun hev => h (Fin.ext hev)
    let x := i.val % BOARD_SIZE
    let y := i.val / BOARD_SIZE
    (if hx : 0 < x then [⟨i.val - 1, by omega⟩] else []) ++
    (if hx3 : x < 3 then [⟨i.val + 1, by omega⟩] else []) ++
    (if hy : 0 < y then [⟨i.val - 4, by omega⟩] else []) ++
    (if hy3 : y < 3 then [⟨i.val + 4, by simp only [y, BOARD_SIZE] at hy3; omega⟩] else []) ++
    (if i.val = 5 ∨ i.val = 6 ∨ i.val = 9 ∨ i.val = 10 then [CENTER_INDEX] else [])

/-- The attack decision of `getValidMoves` (lines 134–141), extracted as
a function of the two pieces: start from the rank comparison, then the
rat-beats-elephant override, then the elephant-cannot-eat-rat override
(assignment order gives the last test precedence). -/
def canAttack (attacker defender : Piece) : Bool :=
  let c0 := false
  let c1 := if attacker.rank ≥ defender.rank then true else c0
  let c2 := if attacker.type = AnimalType.rat ∧ defender.type = AnimalType.elephant
            then true else c1
  if attacker.type = AnimalType.elephant ∧ defender.type = AnimalType.rat
  then false else c2

/-- The per-neighbor body of `getValidMoves` (lines 113–147): `none`
models the early `return`s (center gate for non-rats or an occupied
center, hidden target), `some` a pushed move. -/
def moveTo (b : Board) (c : PlayerColor) (i : Fin 17) (p : Piece) (t : Fin 17) :
    Option Move :=
  let targetCell := b t
  if t = CENTER_INDEX ∧ (p.type ≠ AnimalType.rat ∨ targetCell.piece.isSome) then none
  else if targetCell.isRevealed = false then none
  else
    match targetCell.piece with
    | none => some { fromIndex := some i, toIndex := t, isFlip := false }
    | some q =>
      if q.color ≠ c then
        if canAttack p q then some { fromIndex := some i, toIndex := t, isFlip := false }
        else none
      else none

/-- The per-cell body of `getValidMoves` (lines 83–149): a hidden cell
contributes one flip move; a revealed cell holding a piece of the active
color contributes the legal movement moves into its neighbors. -/
def movesForCell (b : Board) (c : PlayerColor) (i : Fin 17) : List Move :=
  let cell := b i
  if cell.isRevealed = false then [{ fromIndex := none, toIndex := i, isFlip := true }]
  else
    match cell.piece with
    | some p => if p.color = c then (neighbors i).filterMap (fun t => moveTo b c i p t) else []
    | none => []

/-- `getValidMoves` (lines 80–152): iterate the 17 cells in index order. -/
def getValidMoves (b : Board) (c : PlayerColor) : List Move :=
  (List.finRange 17).flatMap (fun i => movesForCell b c i)

example : neighbors 0 = [1, 4] := by decide
example : neighbors 5 = [4, 6, 1, 9, 16] := by decide
example : neighbors 16 = [5, 6, 9, 10] := by decide
example : neighbors 15 = [14, 11] := by decide

/-- C5: for opposing pieces, the attack test succeeds exactly when the
attacker's rank is at least the defender's, except that a rat attacking
an elephant always succeeds and an elephant attacking a rat never does,
the elephant-versus-rat exception taking precedence. -/
theorem canAttack_char (a d : Piece) (_hc : a.color ≠ d.color) :
    (a.type = AnimalType.rat ∧ d.type = AnimalType.elephant → canAttack a d = true) ∧
    (a.type = AnimalType.elephant ∧ d.type = AnimalType.rat → canAttack a d = false) ∧
    (¬(a.type = AnimalType.rat ∧ d.type = AnimalType.elephant) →
     ¬(a.type = AnimalType.elephant ∧ d.type = AnimalType.rat) →
     (canAttack a d = true ↔ a.rank ≥ d.rank)) := by
  unfold canAttack
  refine ⟨?_, ?_, ?_⟩
  · rintro ⟨h1, h2⟩
    simp [h1, h2]
  · rintro ⟨h1, h2⟩
    simp [h1, h2]
  · intro h1 h2
    simp only [if_neg h2, if_neg h1]
    by_cases h : a.rank ≥ d.rank <;> simp [h]

/-- Witness for C5 at a red rat attacking a blue elephant. -/
theorem canAttack_char_witness :
    letI a : Piece := ⟨AnimalType.rat, PlayerColor.red, 1⟩
    letI d : Piece := ⟨AnimalType.elephant, PlayerColor.blue, 8⟩
    (a.type = AnimalType.rat ∧ d.type = AnimalType.elephant → canAttack a d = true) ∧
    (a.type = AnimalType.elephant ∧ d.type = AnimalType.rat → canAttack a d = false) ∧
    (¬(a.type = AnimalType.rat ∧ d.type = AnimalType.elephant) →
     ¬(a.type = AnimalType.elephant ∧ d.type = AnimalType.rat) →
     (canAttack a d = true ↔ a.rank ≥ d.rank)) :=
  canAttack_char ⟨AnimalType.rat, PlayerColor.red, 1⟩
    ⟨AnimalType.elephant, PlayerColor.blue, 8⟩ (by decide)

/-- The flip move targeting cell `t` (lines 85–87). -/
def flipMove (t : Fin 17) : Move := { fromIndex := none, toIndex := t, isFlip := true }

/-- No cell is in its own neighbor list. -/
lemma not_mem_neighbors_self : ∀ i : Fin 17, i ∉ neighbors i := by decide

/-- What a successful `moveTo` tells us: the produced move records the
source and target, the target is revealed, a center target required a rat
and an empty center, and an occupied target held a capturable enemy. -/
lemma moveTo_eq_some {b : Board} {c : PlayerColor} {i : Fin 17} {p : Piece}
    {t : Fin 17} {m : Move} (h : moveTo b c i p t = some m) :
    m = { fromIndex := some i, toIndex := t, isFlip := false } ∧
    (b t).isRevealed = true ∧
    (t = CENTER_INDEX → p.type = AnimalType.rat ∧ (b t).piece = none) ∧
    (∀ q, (b t).piece = some q → q.color ≠ c ∧ canAttack p q = true) := by
  simp only [moveTo] at h
  split at h
  · exact absurd h (by simp)
  · rename_i hgate
    split at h
    · exact absurd h (by simp)
    · rename_i hrev
      split at h
      · rename_i hnone
        cases h
        refine ⟨rfl, by simpa using hrev, ?_, ?_⟩
        · intro ht
          constructor
          · by_contra hrat
            exact hgate ⟨ht, Or.inl hrat⟩
          · exact hnone
        · intro q hq
          rw [hnone] at hq
          cases hq
      · rename_i q hq
        split at h
        · rename_i hqc
          split at h
          · rename_i hatk
            cases h
            refine ⟨rfl, by simpa using hrev, ?_, ?_⟩
            · intro ht
              exact absurd ⟨ht, Or.inr (by simp [hq])⟩ hgate
            · intro q' hq'
              rw [hq] at hq'
              cases hq'
              exact ⟨hqc, hatk⟩
          · exact absurd h (by simp)
        · exact absurd h (by simp)

/-- Membership characterization for `getValidMoves`: a legal move is
either the flip of a hidden cell, or produced by `moveTo` from a revealed
cell holding a piece of the active color into one of its neighbors. -/
lemma mem_getValidMoves_iff {b : Board} {c : PlayerColor} {m : Move} :
    m ∈ getValidMoves b c ↔
      (∃ t : Fin 17, (b t).isRevealed = false ∧ m = flipMove t) ∨
      (∃ i p t, (b i).isRevealed = true ∧ (b i).piece = some p ∧ p.color = c ∧
        t ∈ neighbors i ∧ moveTo b c i p t = some m) := by
  unfold getValidMoves
  rw [List.mem_flatMap]
  constructor
  · rintro ⟨i, -, hm⟩
    simp only [movesForCell] at hm
    split at hm
    · rename_i hrev
      rw [List.mem_singleton] at hm
      exact Or.inl ⟨i, hrev, by simp [hm, flipMove]⟩
    · rename_i hrev
      split at hm
      · rename_i p hp
        split at hm
        · rename_i hcol
          rcases List.mem_filterMap.mp hm with ⟨t, htn, hmt⟩
          exact Or.inr ⟨i, p, t, by simpa using hrev, hp, hcol, htn, hmt⟩
        · cases hm
      · cases hm
  · rintro (⟨t, hrev, rfl⟩ | ⟨i, p, t, hrev, hp, hcol, htn, hmt⟩)
    · refine ⟨t, List.mem_finRange t, ?_⟩
      simp [movesForCell, hrev, flipMove]
    · refine ⟨i, List.mem_finRange i, ?_⟩
      simp [movesForCell, hrev, hp, hcol, List.mem_filterMap]
      exact ⟨t, htn, hmt⟩

/-- C4: for every board and color, no movement move generated by
`getValidMoves` enters the center with a non-rat piece or while the
center is occupied (so no entry and no attack, whatever the attacker's
rank); conversely a rat of the active color standing revealed on one of
the four cells adjacent to the (revealed, as it always is in this game)
empty center does receive the move into it. -/
theorem center_moves_char (b : Board) (c : PlayerColor) :
    (∀ m ∈ getValidMoves b c, m.isFlip = false → m.toIndex = CENTER_INDEX →
      (b CENTER_INDEX).piece = none ∧
      ∃ i p, m.fromIndex = some i ∧ (b i).piece = some p ∧
        p.type = AnimalType.rat) ∧
    (∀ i : Fin 17, (i.val = 5 ∨ i.val = 6 ∨ i.val = 9 ∨ i.val = 10) →
      ∀ p : Piece, (b i).isRevealed = true → (b i).piece = some p → p.color = c →
        p.type = AnimalType.rat →
        (b CENTER_INDEX).isRevealed = true → (b CENTER_INDEX).piece = none →
        ({ fromIndex := some i, toIndex := CENTER_INDEX, isFlip := false } : Move) ∈
          getValidMoves b c) := by
  constructor
  · intro m hm hflip hto
    rcases mem_getValidMoves_iff.mp hm with ⟨t, -, rfl⟩ | ⟨i, p, t, -, hp, -, -, hmt⟩
    · simp [flipMove] at hflip
    · rcases moveTo_eq_some hmt with ⟨rfl, -, hcenter, -⟩
      rcases hcenter hto with ⟨hrat, hnone⟩
      exact ⟨hto ▸ hnone, i, p, rfl, hp, hrat⟩
  · intro i hi p hrev hp hcol hrat hcrev hcnone
    refine mem_getValidMoves_iff.mpr (Or.inr ⟨i, p, CENTER_INDEX, hrev, hp, hcol, ?_, ?_⟩)
    · rcases hi with h | h | h | h <;>
        (first
          | (have : i = (5 : Fin 17) := Fin.ext (by simpa using h); subst this; decide)
          | (have : i = (6 : Fin 17) := Fin.ext (by simpa using h); subst this; decide)
          | (have : i = (9 : Fin 17) := Fin.ext (by simpa using h); subst this; decide)
          | (have : i = (10 : Fin 17) := Fin.ext (by simpa using h); subst this; decide))
    · simp [moveTo, hrat, hcnone, hcrev]

/-- Witness board for C4: a revealed red rat on cell 5, the center
revealed and empty, everything else revealed and empty. -/
def c4Board : Board := fun i =>
  if i = 5 then { piece := some ⟨AnimalType.rat, PlayerColor.red, 1⟩, isRevealed := true }
  else { piece := none, isRevealed := true }

/-- Witness for C4: on `c4Board`, the red rat at cell 5 receives the move
into the empty center. -/
theorem center_moves_char_witness :
    ({ fromIndex := some 5, toIndex := CENTER_INDEX, isFlip := false } : Move) ∈
      getValidMoves c4Board PlayerColor.red :=
  (center_moves_char c4Board PlayerColor.red).2 5 (by decide)
    ⟨AnimalType.rat, PlayerColor.red, 1⟩ (by decide) (by decide) (by decide)
    (by decide) (by decide) (by decide)

/-! ## Game state and the engine (`handleMove`, App component lines 157–243) -/

/-- Controller of a side (the `'HUMAN' | 'AI'` strings of the source). -/
inductive PlayerKind where
  | human | ai
  deriving DecidableEq, Repr

/-- A decided result (`PlayerColor | 'DRAW'` in the `winner` field of
`GameState`, whose rendering distinguishes the two winners and the
draw). -/
inductive WinnerVal where
  | color (c : PlayerColor)
  | draw
  deriving DecidableEq, Repr

/-- `GameState` from `types.ts`, fields as initialized and updated by the
`App` component.  `winner = none` is the source's `null`. -/
structure GameState where
  board : Board
  turn : PlayerColor
  winner : Option WinnerVal
  redPlayer : Option PlayerKind
  bluePlayer : Option PlayerKind
  userColor : Option PlayerColor
  history : List String

/-- `ANIMAL_NAMES` from `constants.ts`. -/
def ANIMAL_NAMES : AnimalType → String
  | .elephant => "大象"
  | .lion => "狮子"
  | .tiger => "老虎"
  | .leopard => "豹"
  | .wolf => "狼"
  | .dog => "狗"
  | .cat => "猫"
  | .rat => "老鼠"

/-- `getColorName` (line 154). -/
def getColorName (color : PlayerColor) : String :=
  if color = PlayerColor.red then "红方" else "蓝方"

/-- `nextBoard.filter(c => !c.isRevealed).length` (line 216). -/
def unrevealedCount (b : Board) : Nat :=
  ((List.finRange 17).filter (fun i => !(b i).isRevealed)).length

/-- `nextBoard.filter(c => c.piece?.color === color).length`
(lines 219–220), for either color. -/
def realColorCount (b : Board) (c : PlayerColor) : Nat :=
  ((List.finRange 17).filter (fun i =>
    match (b i).piece with
    | some p => p.color == c
    | none => false)).length

/-- The win check of `handleMove` (lines 212–225), extracted: no winner
while anything is unrevealed; afterwards the side that still has pieces
wins, and `null` (`none`) results when both or neither side is wiped
out.  The local `nextWinner` has type `PlayerColor | null` in the
source, hence the `Option PlayerColor` here. -/
def computeWinner (b : Board) : Option PlayerColor :=
  if unrevealedCount b = 0 then
    let realRedCount := realColorCount b PlayerColor.red
    let realBlueCount := realColorCount b PlayerColor.blue
    if realRedCount = 0 ∧ realBlueCount = 0 then none
    else if realRedCount = 0 then some PlayerColor.blue
    else if realBlueCount = 0 then some PlayerColor.red
    else none
  else none

/-- The `setGameState` commit of `handleMove` (lines 227–240), extracted:
win check on the new board, win announcement appended to the log line,
unconditional turn flip, history capped at 50 entries. -/
def commit (s : GameState) (nextBoard : Board) (logMessage : String)
    (uc : Option PlayerColor) (rp bp : Option PlayerKind) : GameState :=
  let nextWinner := computeWinner nextBoard
  let logMessage2 :=
    match nextWinner with
    | some w => logMessage ++ " 游戏结束! " ++ getColorName w ++ " 获胜!"
    | none => logMessage
  { board := nextBoard
    turn := if s.turn = PlayerColor.red then PlayerColor.blue else PlayerColor.red
    winner := nextWinner.map WinnerVal.color
    userColor := uc
    redPlayer := rp
    bluePlayer := bp
    history := (logMessage2 :: s.history).take 50 }

/-- `handleMove` (lines 157–243).  `some s` unchanged models the early
`return`s (winner already set; movement without a piece at the source);
`none` models the only crashing path, a flip of a cell that holds no
piece (the source dereferences `targetCell.piece!` there).  A flip marks
the target revealed and, on the very first reveal of the game, binds both
controllers to human and the user color to the revealed piece's color
(PvP mode).  A movement moves the attacker onto the target, empties the
source, and on an equal-rank capture also empties the target. -/
def handleMove (s : GameState) (m : Move) : Option GameState :=
  if s.winner ≠ none then some s
  else if m.isFlip then
    let targetCell := s.board m.toIndex
    match targetCell.piece with
    | none => none
    | some piece =>
      let nextBoard :=
        Function.update s.board m.toIndex { targetCell with isRevealed := true }
      let logMessage := "翻出了 " ++ getColorName piece.color ++ " " ++ ANIMAL_NAMES piece.type
      if s.userColor = none then
        some (commit s nextBoard logMessage (some piece.color)
          (some PlayerKind.human) (some PlayerKind.human))
      else
        some (commit s nextBoard logMessage s.userColor s.redPlayer s.bluePlayer)
  else
    match m.fromIndex with
    | none => some s
    | some src =>
      let currentCell := s.board src
      match currentCell.piece with
      | none => some s
      | some attacker =>
        let targetCell := s.board m.toIndex
        let defender := targetCell.piece
        let b1 := Function.update s.board m.toIndex { targetCell with piece := some attacker }
        let b2 := Function.update b1 src { currentCell with piece := none }
        match defender with
        | some d =>
          if attacker.rank = d.rank then
            some (commit s (Function.update b2 m.toIndex { b2 m.toIndex with piece := none })
              (ANIMAL_NAMES attacker.type ++ " 与 " ++ ANIMAL_NAMES d.type ++ " 同归于尽")
              s.userColor s.redPlayer s.bluePlayer)
          else
            some (commit s b2 (ANIMAL_NAMES attacker.type ++ " 吃掉了 " ++ ANIMAL_NAMES d.type)
              s.userColor s.redPlayer s.bluePlayer)
        | none =>
          some (commit s b2 (ANIMAL_NAMES attacker.type ++ " 移动了")
            s.userColor s.redPlayer s.bluePlayer)

/-! ## Deck and board factory (`constants.ts` lines 41–59, `initGame`
lines 23–51) -/

/-- `INITIAL_DECK` from `constants.ts`: for each kind in rank-table
order, a red piece then a blue piece, ranks taken from `ANIMAL_RANKS`.
The `id` strings (React keys) are omitted. -/
def INITIAL_DECK : List Piece :=
  [AnimalType.elephant, AnimalType.lion, AnimalType.tiger, AnimalType.leopard,
   AnimalType.wolf, AnimalType.dog, AnimalType.cat, AnimalType.rat].flatMap
    (fun t => [{ type := t, color := PlayerColor.red, rank := ANIMAL_RANKS t },
               { type := t, color := PlayerColor.blue, rank := ANIMAL_RANKS t }])

/-- The board built by `initGame` (lines 30–39) from a shuffled deck:
cell 16 open and empty, cell `i` (0–15) hidden and holding `deck[i]`.
The out-of-range `Option` mirrors JS indexing. -/
def initBoard (deck : List Piece) : Board := fun index =>
  if index = CENTER_INDEX then { piece := none, isRevealed := true }
  else { piece := deck.get? index.val, isRevealed := false }

/-- The state built by `initGame` (lines 41–49), parameterized by the
already-shuffled deck (the source shuffles with
`sort(() => Math.random() - 0.5)`, see the deck-shuffle model below). -/
def initGame (deck : List Piece) : GameState :=
  { board := initBoard deck
    turn := PlayerColor.red
    winner := none
    redPlayer := none
    bluePlayer := none
    userColor := none
    history := ["游戏开始。请翻开一张牌！"] }

example :
    (handleMove (initGame INITIAL_DECK) (flipMove 0)).map
      (fun g => ((g.board 0).isRevealed, g.turn, g.winner, g.userColor)) =
    some (true, PlayerColor.blue, none, some PlayerColor.red) := by decide
example : unrevealedCount (initGame INITIAL_DECK).board = 16 := by decide
example : realColorCount (initGame INITIAL_DECK).board PlayerColor.red = 8 := by decide

/-- C6: applying a legal capture move removes both pieces when the ranks
are equal (both cells end empty and revealed), and otherwise removes
only the defender, the attacker occupying the destination and the source
becoming empty. -/
theorem capture_outcome (s : GameState) (m : Move) (src : Fin 17) (a d : Piece)
    (hw : s.winner = none)
    (hm : m ∈ getValidMoves s.board s.turn)
    (hflip : m.isFlip = false)
    (hsrc : m.fromIndex = some src)
    (ha : (s.board src).piece = some a)
    (hd : (s.board m.toIndex).piece = some d) :
    ∃ s', handleMove s m = some s' ∧
      (s'.board src).piece = none ∧ (s'.board src).isRevealed = true ∧
      (s'.board m.toIndex).isRevealed = true ∧
      (a.rank = d.rank → (s'.board m.toIndex).piece = none) ∧
      (a.rank ≠ d.rank → (s'.board m.toIndex).piece = some a) := by
  rcases mem_getValidMoves_iff.mp hm with ⟨t, -, rfl⟩ | ⟨i, p, t, hrev, hp, hcol, htn, hmt⟩
  · simp [flipMove] at hflip
  · rcases moveTo_eq_some hmt with ⟨rfl, htrev, -, -⟩
    obtain rfl : src = i := by simpa using hsrc.symm
    obtain rfl : a = p := by rw [hp] at ha; exact (Option.some.inj ha).symm
    simp only at hd
    have hne : t ≠ src := fun h => not_mem_neighbors_self src (h ▸ htn)
    simp only [handleMove, hw, ne_eq, not_true_eq_false, reduceIte, hp, hd]
    by_cases hr : a.rank = d.rank
    · rw [if_pos hr]
      refine ⟨_, rfl, ?_, ?_, ?_, fun _ => ?_, fun hne2 => absurd hr hne2⟩ <;>
        simp [commit, Function.update_same, Function.update_noteq (Ne.symm hne),
          Function.update_noteq hne, hrev, htrev]
    · rw [if_neg hr]
      refine ⟨_, rfl, ?_, ?_, ?_, fun hr2 => absurd hr2 hr, fun _ => ?_⟩ <;>
        simp [commit, Function.update_same, Function.update_noteq (Ne.symm hne),
          Function.update_noteq hne, hrev, htrev]

/-- A fully revealed position with only a red rat on cell 0 and a blue
rat on cell 1, red to move: the capture 0→1 is legal, of equal rank, and
empties the whole board. -/
def twoRatState : GameState :=
  { board := fun i =>
      if i = 0 then { piece := some ⟨AnimalType.rat, PlayerColor.red, 1⟩, isRevealed := true }
      else if i = 1 then { piece := some ⟨AnimalType.rat, PlayerColor.blue, 1⟩, isRevealed := true }
      else { piece := none, isRevealed := true }
    turn := PlayerColor.red
    winner := none
    redPlayer := some PlayerKind.human
    bluePlayer := some PlayerKind.human
    userColor := some PlayerColor.red
    history := [] }

/-- Witness for C6: the equal-rank capture 0→1 on `twoRatState`. -/
theorem capture_outcome_witness :
    ∃ s', handleMove twoRatState { fromIndex := some 0, toIndex := 1, isFlip := false } =
        some s' ∧
      (s'.board 0).piece = none ∧ (s'.board 0).isRevealed = true ∧
      (s'.board (1 : Fin 17)).isRevealed = true ∧
      ((⟨AnimalType.rat, PlayerColor.red, 1⟩ : Piece).rank =
          (⟨AnimalType.rat, PlayerColor.blue, 1⟩ : Piece).rank →
        (s'.board (1 : Fin 17)).piece = none) ∧
      ((⟨AnimalType.rat, PlayerColor.red, 1⟩ : Piece).rank ≠
          (⟨AnimalType.rat, PlayerColor.blue, 1⟩ : Piece).rank →
        (s'.board (1 : Fin 17)).piece =
          some ⟨AnimalType.rat, PlayerColor.red, 1⟩) :=
  capture_outcome twoRatState { fromIndex := some 0, toIndex := 1, isFlip := false }
    0 ⟨AnimalType.rat, PlayerColor.red, 1⟩ ⟨AnimalType.rat, PlayerColor.blue, 1⟩
    rfl (by decide) rfl rfl (by decide) (by decide)

/-- C1, failing input: on `twoRatState` the mutual elimination 0→1
leaves zero unrevealed cells and zero pieces of either color, yet the
committed winner field is `none` — the game is left unconcluded rather
than recorded as a draw (the rendering's `'DRAW'` case is unreachable). -/
theorem wipeout_leaves_winner_none :
    (handleMove twoRatState { fromIndex := some 0, toIndex := 1, isFlip := false }).map
      (fun g => (g.winner, unrevealedCount g.board,
        realColorCount g.board PlayerColor.red,
        realColorCount g.board PlayerColor.blue)) =
    some (none, 0, 0, 0) := by decide

/-! ## Click handling (`handleCellClick`, App component lines 246–288) -/

/-- `handleCellClick` (lines 246–288), modelled as a function of the
game state, the current selection, and the clicked index, returning the
new state and selection.  `none` models the crash `handleMove` can take
on a flip of an empty hidden cell.  A completed `handleMove` ends with
`setSelectedIndex(null)` (line 242), hence the `none` selections after
its calls. -/
def handleCellClick (g : GameState) (sel : Option (Fin 17)) (i : Fin 17) :
    Option (GameState × Option (Fin 17)) :=
  if g.winner ≠ none then some (g, sel)
  else
    let cell := g.board i
    if cell.isRevealed = false then
      match sel with
      | some _ => some (g, none)
      | none =>
        match handleMove g { fromIndex := none, toIndex := i, isFlip := true } with
        | some g2 => some (g2, none)
        | none => none
    else
      match sel with
      | none =>
        match cell.piece with
        | none => some (g, sel)
        | some p => if p.color = g.turn then some (g, some i) else some (g, sel)
      | some selectedIndex =>
        if i = selectedIndex then some (g, none)
        else
          match (getValidMoves g.board g.turn).find?
              (fun m => m.fromIndex == some selectedIndex && m.toIndex == i) with
          | some mv =>
            match handleMove g mv with
            | some g2 => some (g2, none)
            | none => none
          | none =>
            match cell.piece with
            | some p => if p.color = g.turn then some (g, some i) else some (g, none)
            | none => some (g, none)

/-- C2 (amended): with a piece selected, clicking a destination for
which the (source, destination) pair is not a legal move leaves the
entire game state — board, turn, winner, controllers, history — exactly
as it was; only the selection changes, and no error is surfaced.  (The
validation lives in the click handler: `handleMove` itself applies
whatever move it is given, see the counterexample.) -/
theorem invalid_click_no_mutation (g : GameState) (s i : Fin 17)
    (hw : g.winner = none)
    (hno : ∀ m ∈ getValidMoves g.board g.turn,
      ¬(m.fromIndex = some s ∧ m.toIndex = i)) :
    ∃ sel2, handleCellClick g (some s) i = some (g, sel2) := by
  have hfind : (getValidMoves g.board g.turn).find?
      (fun m => m.fromIndex == some s && m.toIndex == i) = none := by
    rw [List.find?_eq_none]
    intro m hm
    have := hno m hm
    simp only [Bool.and_eq_true, beq_iff_eq]
    intro hcontra
    exact this ⟨hcontra.1, hcontra.2⟩
  by_cases hrev : (g.board i).isRevealed = false
  · exact ⟨none, by simp [handleCellClick, hw, hrev]⟩
  · by_cases heq : i = s
    · exact ⟨none, by simp [handleCellClick, hw, hrev, heq]⟩
    · rcases hcp : (g.board i).piece with _ | p
      · exact ⟨none, by simp [handleCellClick, hw, hrev, heq, hfind, hcp]⟩
      · by_cases hpc : p.color = g.turn
        · exact ⟨some i, by simp [handleCellClick, hw, hrev, heq, hfind, hcp, hpc]⟩
        · exact ⟨none, by simp [handleCellClick, hw, hrev, heq, hfind, hcp, hpc]⟩

/-- Witness for C2 (amended): on `twoRatState` with cell 0 selected,
clicking cell 3 (not a legal destination for the rat on 0) leaves the
game state untouched. -/
theorem invalid_click_no_mutation_witness :
    ∃ sel2, handleCellClick twoRatState (some 0) 3 = some (twoRatState, sel2) :=
  invalid_click_no_mutation twoRatState 0 3 rfl (by decide)

/-- Counterexample to C2 as stated: `handleMove` itself performs no
legality validation.  On `twoRatState` (winner unset) the pair (0, 15)
is not in the legal-move set — cells 0 and 15 are not even adjacent —
yet `handleMove` applies the move and mutates the board, teleporting the
red rat onto cell 15 instead of rejecting. -/
theorem unvalidated_move_applied :
    ({ fromIndex := some 0, toIndex := 15, isFlip := false } : Move) ∉
        getValidMoves twoRatState.board twoRatState.turn ∧
    twoRatState.winner = none ∧
    (twoRatState.board 15).piece = none ∧
    (handleMove twoRatState { fromIndex := some 0, toIndex := 15, isFlip := false }).map
      (fun g => (g.board (15 : Fin 17)).piece) =
      some (some ⟨AnimalType.rat, PlayerColor.red, 1⟩) := by decide

/-! ## Reachable states: piece conservation and deferred win detection -/

/-- Number of pieces present on the board (spec-side measure for the
conservation claim). -/
def pieceCount (b : Board) : Nat :=
  ∑ i : Fin 17, if (b i).piece.isSome then 1 else 0

/-- How many pieces a move removes from the board it is applied to:
2 on an equal-rank capture (mutual elimination), 1 on an ordinary
capture, 0 for flips and non-capturing moves. -/
def capturedOf (b : Board) (m : Move) : Nat :=
  if m.isFlip then 0
  else
    match m.fromIndex with
    | none => 0
    | some src =>
      match (b src).piece, (b m.toIndex).piece with
      | some a, some d => if a.rank = d.rank then 2 else 1
      | _, _ => 0

/-- Updating one cell changes `pieceCount` by the difference of the old
and new cell's occupancy. -/
lemma pieceCount_update (b : Board) (i : Fin 17) (c : Cell) :
    pieceCount (Function.update b i c) + (if (b i).piece.isSome then 1 else 0)
      = pieceCount b + (if c.piece.isSome then 1 else 0) := by
  have key : ∀ j : Fin 17,
      (if ((Function.update b i c) j).piece.isSome then 1 else 0 : Nat)
        = Function.update (fun j : Fin 17 => if (b j).piece.isSome then 1 else 0) i
            (if c.piece.isSome then 1 else 0) j := by
    intro j
    by_cases hj : j = i
    · subst hj; simp
    · simp [Function.update_noteq hj]
  unfold pieceCount
  rw [Finset.sum_congr rfl (fun j _ => key j),
    Finset.sum_update_of_mem (Finset.mem_univ i),
    ← Finset.sum_erase_add Finset.univ _ (Finset.mem_univ i), Finset.erase_eq]
  omega

/-- A fresh board carries all 16 deck pieces. -/
lemma pieceCount_initBoard {deck : List Piece} (hlen : deck.length = 16) :
    pieceCount (initBoard deck) = 16 := by
  have : pieceCount (initBoard deck)
      = ∑ i : Fin 17, if i = CENTER_INDEX then 0 else 1 := by
    refine Finset.sum_congr rfl (fun i _ => ?_)
    by_cases hi : i = CENTER_INDEX
    · simp [initBoard, hi]
    · have hlt : i.val < 16 := by
        have h17 := i.isLt
        have : i.val ≠ 16 := fun h => hi (Fin.ext h)
        omega
      simp [initBoard, hi]
      omega
  rw [this]
  decide

/-- Computing a flip of an occupied cell: the board gets the reveal mark,
everything else is a `commit` with some controller bindings. -/
lemma handleMove_flip (s : GameState) (t : Fin 17) (piece : Piece)
    (hw : s.winner = none) (hpc : (s.board t).piece = some piece) :
    ∃ uc rp bp, handleMove s (flipMove t) =
      some (commit s (Function.update s.board t { s.board t with isRevealed := true })
        ("翻出了 " ++ getColorName piece.color ++ " " ++ ANIMAL_NAMES piece.type) uc rp bp) := by
  by_cases huc : s.userColor = none
  · refine ⟨some piece.color, some PlayerKind.human, some PlayerKind.human, ?_⟩
    simp [handleMove, hw, flipMove, hpc, huc]
  · refine ⟨s.userColor, s.redPlayer, s.bluePlayer, ?_⟩
    simp [handleMove, hw, flipMove, hpc, huc]

/-- Any successful `handleMove` either returns the state unchanged (an
early `return`) or commits via `commit`. -/
lemma handleMove_shape (s : GameState) (m : Move) (s2 : GameState)
    (hs : handleMove s m = some s2) :
    s2 = s ∨ ∃ b log uc rp bp, s2 = commit s b log uc rp bp := by
  simp only [handleMove] at hs
  split at hs
  · exact Or.inl (Option.some.inj hs).symm
  · split at hs
    · split at hs
      · cases hs
      · split at hs
        · exact Or.inr ⟨_, _, _, _, _, (Option.some.inj hs).symm⟩
        · exact Or.inr ⟨_, _, _, _, _, (Option.some.inj hs).symm⟩
    · split at hs
      · exact Or.inl (Option.some.inj hs).symm
      · split at hs
        · exact Or.inl (Option.some.inj hs).symm
        · split at hs
          · split at hs
            · exact Or.inr ⟨_, _, _, _, _, (Option.some.inj hs).symm⟩
            · exact Or.inr ⟨_, _, _, _, _, (Option.some.inj hs).symm⟩
          · exact Or.inr ⟨_, _, _, _, _, (Option.some.inj hs).symm⟩

/-- A committed state never carries a winner while any cell is
unrevealed: the win check runs only under `unrevealedCount == 0`. -/
lemma commit_winner_unrevealed (s : GameState) (b : Board) (log : String)
    (uc : Option PlayerColor) (rp bp : Option PlayerKind)
    (h : (commit s b log uc rp bp).winner ≠ none) :
    unrevealedCount (commit s b log uc rp bp).board = 0 := by
  by_cases h0 : unrevealedCount b = 0
  · simpa [commit] using h0
  · exfalso
    apply h
    simp [commit, computeWinner, h0]

/-- Applying a legal action from an unconcluded state removes exactly
`capturedOf` pieces from the board: none on a flip or plain move, the
defender on a capture, both pieces on a mutual elimination. -/
lemma pieceCount_handleMove {s : GameState} {m : Move} {s2 : GameState}
    (hw : s.winner = none) (hm : m ∈ getValidMoves s.board s.turn)
    (hs : handleMove s m = some s2) :
    pieceCount s2.board + capturedOf s.board m = pieceCount s.board := by
  rcases mem_getValidMoves_iff.mp hm with ⟨t, hrev, rfl⟩ | ⟨i, p, t, hrev, hp, hcol, htn, hmt⟩
  · rcases hpc : (s.board t).piece with _ | piece
    · exfalso
      simp [handleMove, hw, flipMove, hpc] at hs
    · rcases handleMove_flip s t piece hw hpc with ⟨uc, rp, bp, heq⟩
      rw [heq] at hs
      obtain rfl := Option.some.inj hs
      have e1 := pieceCount_update s.board t
        { piece := (s.board t).piece, isRevealed := true }
      simp only [] at e1
      have hc0 : capturedOf s.board (flipMove t) = 0 := rfl
      rw [hc0]
      simp only [commit]
      omega
  · rcases moveTo_eq_some hmt with ⟨rfl, htrev, -, -⟩
    have hne : t ≠ i := fun h => not_mem_neighbors_self i (h ▸ htn)
    rcases hd : (s.board t).piece with _ | d
    · simp only [handleMove, hw, ne_eq, not_true_eq_false, reduceIte, hp, hd] at hs
      obtain rfl := Option.some.inj hs
      have e1 := pieceCount_update s.board t
        { piece := some p, isRevealed := (s.board t).isRevealed }
      have e2 := pieceCount_update
        (Function.update s.board t { piece := some p, isRevealed := (s.board t).isRevealed })
        i { piece := none, isRevealed := (s.board i).isRevealed }
      have hcap : capturedOf s.board { fromIndex := some i, toIndex := t, isFlip := false }
          = 0 := by
        simp [capturedOf, hp, hd]
      rw [hcap]
      simp only [commit]
      simp [hp, hd, Function.update_noteq hne, Function.update_noteq (Ne.symm hne)]
        at e1 e2 ⊢
      omega
    · simp only [handleMove, hw, ne_eq, not_true_eq_false, reduceIte, hp, hd] at hs
      split at hs
      · rename_i hfl
        exact absurd hfl (by decide)
      split at hs
      · rename_i hr
        obtain rfl := Option.some.inj hs
        have e1 := pieceCount_update s.board t
          { piece := some p, isRevealed := (s.board t).isRevealed }
        have e2 := pieceCount_update
          (Function.update s.board t { piece := some p, isRevealed := (s.board t).isRevealed })
          i { piece := none, isRevealed := (s.board i).isRevealed }
        have e3 := pieceCount_update
          (Function.update
            (Function.update s.board t { piece := some p, isRevealed := (s.board t).isRevealed })
            i { piece := none, isRevealed := (s.board i).isRevealed })
          t
          { piece := none,
            isRevealed :=
              (Function.update
                (Function.update s.board t
                  { piece := some p, isRevealed := (s.board t).isRevealed })
                i { piece := none, isRevealed := (s.board i).isRevealed } t).isRevealed }
        have hcap : capturedOf s.board { fromIndex := some i, toIndex := t, isFlip := false }
            = 2 := by
          simp [capturedOf, hp, hd, hr]
        rw [hcap]
        simp only [commit]
        simp [hp, hd, Function.update_noteq hne, Function.update_noteq (Ne.symm hne)]
          at e1 e2 e3 ⊢
        omega
      · rename_i hr
        obtain rfl := Option.some.inj hs
        have e1 := pieceCount_update s.board t
          { piece := some p, isRevealed := (s.board t).isRevealed }
        have e2 := pieceCount_update
          (Function.update s.board t { piece := some p, isRevealed := (s.board t).isRevealed })
          i { piece := none, isRevealed := (s.board i).isRevealed }
        have hcap : capturedOf s.board { fromIndex := some i, toIndex := t, isFlip := false }
            = 1 := by
          simp [capturedOf, hp, hd, hr]
        rw [hcap]
        simp only [commit]
        simp [hp, hd, Function.update_noteq hne, Function.update_noteq (Ne.symm hne)]
          at e1 e2 ⊢
        omega

/-- Game states reachable from a freshly built board by applying legal
actions, paired with a running count of the pieces removed by captures
and mutual eliminations so far.  A step applies `handleMove` to a member
of the current legal-move set from a not-yet-concluded state (the click
handler rejects all input once a winner is set). -/
inductive ReachableCap : GameState → Nat → Prop where
  | init (deck : List Piece) (hperm : deck.Perm INITIAL_DECK) :
      ReachableCap (initGame deck) 0
  | step {s : GameState} {k : Nat} {m : Move} {s2 : GameState}
      (hr : ReachableCap s k) (hw : s.winner = none)
      (hm : m ∈ getValidMoves s.board s.turn)
      (hs : handleMove s m = some s2) :
      ReachableCap s2 (k + capturedOf s.board m)

/-- C7: in every state reachable from a fresh board by legal actions,
the pieces on the board plus the pieces removed by captures and mutual
eliminations total 16. -/
theorem piece_conservation :
    ∀ s k, ReachableCap s k → pieceCount s.board + k = 16 := by
  intro s k h
  induction h with
  | init deck hperm =>
    have hlen : deck.length = 16 := by
      rw [hperm.length_eq]
      rfl
    simpa [initGame] using pieceCount_initBoard hlen
  | step hr hw hm hs ih =>
    have hstep := pieceCount_handleMove hw hm hs
    omega

/-- Witness for C7 at the fresh unshuffled game: 16 pieces on board, 0
captured. -/
theorem piece_conservation_witness :
    pieceCount (initGame INITIAL_DECK).board + 0 = 16 :=
  piece_conservation (initGame INITIAL_DECK) 0
    (ReachableCap.init INITIAL_DECK (List.Perm.refl _))

/-- C3: in every reachable game state, either no winner is set or every
cell is revealed — the winner is never set while a cell remains
unrevealed, however lopsided the captures are. -/
theorem no_winner_while_unrevealed :
    ∀ s k, ReachableCap s k → s.winner = none ∨ unrevealedCount s.board = 0 := by
  intro s k h
  induction h with
  | init deck hperm => exact Or.inl rfl
  | step hr hw hm hs ih =>
    rename_i s k m s2
    rcases handleMove_shape _ _ _ hs with rfl | ⟨b, log, uc, rp, bp, rfl⟩
    · exact Or.inl hw
    · by_cases h2 : (commit s b log uc rp bp).winner = none
      · exact Or.inl h2
      · exact Or.inr (commit_winner_unrevealed s b log uc rp bp h2)

/-- Witness for C3 at the fresh unshuffled game. -/
theorem no_winner_while_unrevealed_witness :
    (initGame INITIAL_DECK).winner = none ∨
      unrevealedCount (initGame INITIAL_DECK).board = 0 :=
  no_winner_while_unrevealed (initGame INITIAL_DECK) 0
    (ReachableCap.init INITIAL_DECK (List.Perm.refl _))

/-! ## Fresh-board characterization (C9) -/

/-- The pieces currently on the board, in cell-index order. -/
def boardPieces (b : Board) : List Piece :=
  (List.finRange 17).filterMap (fun i => (b i).piece)

/-- A 16-piece deck laid out by `initGame` puts exactly that deck on
cells 0–15, in order. -/
lemma boardPieces_initBoard {deck : List Piece} (hlen : deck.length = 16) :
    boardPieces (initBoard deck) = deck := by
  rcases deck with _ | ⟨a0, deck⟩
  · simp at hlen
  rcases deck with _ | ⟨a1, deck⟩
  · simp at hlen
  rcases deck with _ | ⟨a2, deck⟩
  · simp at hlen
  rcases deck with _ | ⟨a3, deck⟩
  · simp at hlen
  rcases deck with _ | ⟨a4, deck⟩
  · simp at hlen
  rcases deck with _ | ⟨a5, deck⟩
  · simp at hlen
  rcases deck with _ | ⟨a6, deck⟩
  · simp at hlen
  rcases deck with _ | ⟨a7, deck⟩
  · simp at hlen
  rcases deck with _ | ⟨a8, deck⟩
  · simp at hlen
  rcases deck with _ | ⟨a9, deck⟩
  · simp at hlen
  rcases deck with _ | ⟨a10, deck⟩
  · simp at hlen
  rcases deck with _ | ⟨a11, deck⟩
  · simp at hlen
  rcases deck with _ | ⟨a12, deck⟩
  · simp at hlen
  rcases deck with _ | ⟨a13, deck⟩
  · simp at hlen
  rcases deck with _ | ⟨a14, deck⟩
  · simp at hlen
  rcases deck with _ | ⟨a15, deck⟩
  · simp at hlen
  rcases deck with _ | ⟨a16, deck⟩
  · rfl
  · simp at hlen

/-- C9: for any permutation of the initial deck, the freshly built board
(17 cells by construction of `Board`) has the center revealed and empty;
every other cell starts unrevealed and holds a piece whose rank is fixed
by its kind; and each (color, kind) pair occurs exactly once among the
pieces on cells 0–15. -/
theorem fresh_board_char :
    ∀ deck : List Piece, deck.Perm INITIAL_DECK →
      (initBoard deck CENTER_INDEX = { piece := none, isRevealed := true }) ∧
      (∀ i : Fin 17, i ≠ CENTER_INDEX →
        (initBoard deck i).isRevealed = false ∧
        ∃ p, (initBoard deck i).piece = some p ∧ p.rank = ANIMAL_RANKS p.type) ∧
      (∀ c : PlayerColor, ∀ k : AnimalType,
        ((boardPieces (initBoard deck)).filter
          (fun p => p.color == c && p.type == k)).length = 1) := by
  intro deck hperm
  have hlen : deck.length = 16 := by
    rw [hperm.length_eq]
    rfl
  refine ⟨rfl, ?_, ?_⟩
  · intro i hi
    have hlt : i.val < 16 := by
      have h17 := i.isLt
      have : i.val ≠ 16 := fun h => hi (Fin.ext h)
      omega
    constructor
    · simp [initBoard, hi]
    · cases hg : deck.get? i.val with
      | none =>
        rw [List.get?_eq_none] at hg
        omega
      | some p =>
        refine ⟨p, by simp [initBoard, hi]; rw [← List.get?_eq_getElem?]; exact hg, ?_⟩
        have hpdeck : p ∈ deck := List.get?_mem hg
        have hpinit : p ∈ INITIAL_DECK := hperm.mem_iff.mp hpdeck
        have hall : ∀ q ∈ INITIAL_DECK, q.rank = ANIMAL_RANKS q.type := by decide
        exact hall p hpinit
  · intro c k
    rw [boardPieces_initBoard hlen,
      (hperm.filter (fun p => p.color == c && p.type == k)).length_eq]
    revert c k
    decide

/-- Witness for C9 at the unshuffled deck itself. -/
theorem fresh_board_char_witness :
    (initBoard INITIAL_DECK CENTER_INDEX = { piece := none, isRevealed := true }) ∧
    (∀ i : Fin 17, i ≠ CENTER_INDEX →
      (initBoard INITIAL_DECK i).isRevealed = false ∧
      ∃ p, (initBoard INITIAL_DECK i).piece = some p ∧ p.rank = ANIMAL_RANKS p.type) ∧
    (∀ c : PlayerColor, ∀ k : AnimalType,
      ((boardPieces (initBoard INITIAL_DECK)).filter
        (fun p => p.color == c && p.type == k)).length = 1) :=
  fresh_board_char INITIAL_DECK (List.Perm.refl _)

/-! ## The deck shuffle (C8) -/

/-- Modelled from the spec and line 25 of the `App` component: `initGame`
shuffles with `[...INITIAL_DECK].sort(() => Math.random() - 0.5)`.
`Array.prototype.sort` with a random comparator is implementation-defined,
so a concrete comparison sort (insertion sort) stands in for it here;
`coins k` is the outcome of the k-th comparator call (`true` when
`Math.random() - 0.5` is negative, i.e. keep the inserted element in
front).  `insertCoin` inserts one element, returning the next unused
coin index. -/
def insertCoin {α : Type} (coins : Nat → Bool) : Nat → α → List α → List α × Nat
  | k, a, [] => ([a], k)
  | k, a, b :: l =>
    if coins k then (a :: b :: l, k + 1)
    else
      let r := insertCoin coins (k + 1) a l
      (b :: r.1, r.2)

/-- Insertion sort driven by the comparator-outcome stream (see
`insertCoin`). -/
def sortCoins {α : Type} (coins : Nat → Bool) : Nat → List α → List α × Nat
  | k, [] => ([], k)
  | k, a :: l =>
    let r := sortCoins coins k l
    insertCoin coins r.2 a r.1

/-- The comparator shuffle of line 25 under the insertion-sort model. -/
def comparatorShuffle {α : Type} (coins : Nat → Bool) (l : List α) : List α :=
  (sortCoins coins 0 l).1

/-- All outcomes of the comparator shuffle of a 3-element list over the
8 equally likely outcomes of its (at most 3) fair comparator calls. -/
def shuffleOutcomes : List (List Nat) :=
  (List.range 8).map (fun v => comparatorShuffle (fun n => v.testBit n) [0, 1, 2])

/-- C8, divergence: under the comparison-sort model of line 25's
`sort(() => Math.random() - 0.5)`, the eight equally likely comparator
outcomes for a 3-element list do not distribute uniformly over the 6
permutations — the identity order arises twice as often as the reversed
order (indeed no assignment of 2^k fair-coin outcomes to 6 permutations
can be uniform).  The shuffle of the 16-piece deck is therefore not the
uniformly distributed permutation the specification requires. -/
theorem comparator_shuffle_not_uniform :
    shuffleOutcomes.count [0, 1, 2] = 2 ∧ shuffleOutcomes.count [2, 1, 0] = 1 ∧
    shuffleOutcomes.count [0, 1, 2] ≠ shuffleOutcomes.count [2, 1, 0] := by
  decide
